import Mathlib

/-!
DesignPatterns: thread pool and factory registry

A shallow embedding of `thread_pool/thread_pool.hpp` and `factory/factory.hpp`,
followed by the properties established about them.  `singleton/singleton.hpp`
is not embedded: at line 111 `GetInstance` applies `.get()` to `tmp`, a raw
pointer, so that the function cannot be instantiated for any `T`.

Conventions of the embedding

* A member function becomes a function from the object's fields to the new
  fields (and the returned value, when there is one).  The functions of
  `ThreadPool` return `void` and contain no `throw`; the one way a call does
  not return is `std::terminate`, which the standard library calls when a
  `std::thread` that is still joinable is assigned to or destroyed.
* The sections guarded by `m_queueMutex` are atomic; an interleaving of threads
  is a list of such atomic operations.
* A job (`std::function<void()>`) is opaque and is represented by a number that
  identifies it.
* A `std::thread` handle is represented by the identity of the thread it is
  bound to; `0` stands for a default-constructed handle bound to no thread, and
  a handle is joinable exactly when it is not `0`.
* The statement `m_threads[i] (ThreadLoop);` of `Start` is not well-formed; it is
  read as the move assignment `m_threads[i] = std::thread(ThreadLoop)` of a newly
  launched thread to slot `i`.
-/

namespace ThreadPool

/-- A job is identified by a number; its body is opaque. -/
abbrev Job := Nat

/-- The identity of a thread of execution; `0` is "not a thread". -/
abbrev ThreadId := Nat

/-- The data members of `class ThreadPool` (the mutex and the condition variable
carry no data).  `launched` is a history variable: the number of threads that
have been launched on `ThreadLoop` so far, from which the identity of the next
thread is taken. -/
structure Pool where
  m_shouldTerminate : Bool
  m_threads : List ThreadId
  m_jobs : List Job
  launched : Nat
deriving DecidableEq, Repr

/-- The state after `ThreadPool::ThreadPool()`: the in-class initialiser sets
`m_shouldTerminate = false`, both containers are empty. -/
def ctor : Pool :=
  { m_shouldTerminate := false, m_threads := [], m_jobs := [], launched := 0 }

/-- The process that owns the pool.  `terminated` is set once `std::terminate`
has been called: the process is gone, and `pool` holds the fields as they were
at that moment. -/
structure Process where
  pool : Pool
  terminated : Bool
deriving DecidableEq, Repr

/-- The process right after the pool has been constructed. -/
def boot : Process :=
  { pool := ctor, terminated := false }

/-- Whether a `std::thread` handle is joinable: it is bound to a thread. -/
def joinable (t : ThreadId) : Bool :=
  t != 0

/-- The effect of `std::vector<std::thread>::resize(n)`: keeps the first `n`
handles and pads with default-constructed handles.  The handles past `n` are
destroyed, and the destructor of a joinable `std::thread` calls
`std::terminate`: the result is then `none`. -/
def resize (v : List ThreadId) (n : Nat) : Option (List ThreadId) :=
  if (v.drop n).any joinable then none
  else some (v.take n ++ List.replicate (n - v.length) 0)

/-- The loop `for (i = ...; i < NUM_THREADS; i++) m_threads[i] (ThreadLoop);` of
`Start`, with `k` iterations left and the counter at `i`.  An iteration launches
a thread on `ThreadLoop` and move-assigns it to slot `i`; the move assignment
calls `std::terminate` when the slot holds a joinable handle. -/
def launchLoop : Nat → Nat → Pool → Process
  | _, 0, p => { pool := p, terminated := false }
  | i, k + 1, p =>
    if joinable (p.m_threads.getD i 0) then
      { pool := { p with launched := p.launched + 1 }, terminated := true }
    else
      launchLoop (i + 1) k
        { p with m_threads := p.m_threads.set i (p.launched + 1),
                 launched := p.launched + 1 }

/-- The function `ThreadPool::Start`, lines 62-74.  `NUM_THREADS` is the value of
`std::thread::hardware_concurrency()`.  The result tells whether the call
returned or the process was terminated in it. -/
def Start (NUM_THREADS : Nat) (p : Pool) : Process :=
  match resize p.m_threads NUM_THREADS with
  | none => { pool := p, terminated := true }
  | some v => launchLoop 0 NUM_THREADS { p with m_threads := v }

/-- What one pass through the body of `while (true)` in `ThreadLoop` does. -/
inductive LoopResult where
  /-- the wait predicate is false: the thread stays blocked in `wait` -/
  | blocked
  /-- `m_shouldTerminate` was observed: `return` -/
  | exited
  /-- a job was taken from the queue and then called -/
  | ran (job : Job)
deriving DecidableEq, Repr

/-- The predicate passed to `m_mutexCondition.wait`, line 88. -/
def waitPredicate (p : Pool) : Bool :=
  !p.m_jobs.isEmpty || p.m_shouldTerminate

/-- One iteration of `ThreadPool::ThreadLoop`, lines 83-99: the locked section
(wait, test of the flag, `front`/`pop`) followed by `job()`. -/
def ThreadLoopIter (p : Pool) : Pool × LoopResult :=
  if !waitPredicate p then (p, LoopResult.blocked)
  else if p.m_shouldTerminate then (p, LoopResult.exited)
  else
    match p.m_jobs with
    | [] => (p, LoopResult.blocked)
    | job :: rest => ({ p with m_jobs := rest }, LoopResult.ran job)

/-- The function `ThreadPool::QueueJob`, lines 105-115: `m_jobs.push(job)` under
the lock; `notify_one` changes no data. -/
def QueueJob (p : Pool) (job : Job) : Pool :=
  { p with m_jobs := p.m_jobs ++ [job] }

/-- The function `ThreadPool::Busy`, lines 123-133: returns `m_jobs.empty()`. -/
def Busy (p : Pool) : Bool × Pool :=
  let poolBusy := p.m_jobs.isEmpty
  (poolBusy, p)

/-- The locked section of `ThreadPool::Stop`, lines 139-145: the flag is raised
and every waiting thread is notified. -/
def StopSignal (p : Pool) : Pool :=
  { p with m_shouldTerminate := true }

/-- The rest of `ThreadPool::Stop`, lines 148-153: every handle is joined (each
worker has left `ThreadLoop`) and `m_threads.clear()`. -/
def StopJoin (p : Pool) : Pool :=
  { p with m_threads := [] }

/-- The function `ThreadPool::Stop`, lines 137-154. -/
def Stop (p : Pool) : Pool :=
  StopJoin (StopSignal p)

/-- The operations that threads interleave on one pool. -/
inductive Op where
  | start
  | queueJob (job : Job)
  | busy
  | stop
  | worker
deriving DecidableEq, Repr

/-- The process after one operation is attempted: a terminated process
executes nothing. -/
def step (NUM_THREADS : Nat) (op : Op) (s : Process) : Process :=
  if s.terminated then s
  else
    match op with
    | Op.start => Start NUM_THREADS s.pool
    | Op.queueJob job => { s with pool := QueueJob s.pool job }
    | Op.busy => { s with pool := (Busy s.pool).2 }
    | Op.stop => { s with pool := Stop s.pool }
    | Op.worker => { s with pool := (ThreadLoopIter s.pool).1 }

/-- The jobs an operation takes out of the queue (at most one, by a worker). -/
def dequeuedBy (op : Op) (s : Process) : List Job :=
  if s.terminated then []
  else
    match op with
    | Op.worker =>
      match (ThreadLoopIter s.pool).2 with
      | LoopResult.ran job => [job]
      | _ => []
    | _ => []

/-- The jobs an operation submits; a call attempted in a terminated process is
not executed and submits nothing. -/
def submittedBy (op : Op) (s : Process) : List Job :=
  if s.terminated then []
  else
    match op with
    | Op.queueJob job => [job]
    | _ => []

/-- The process after a sequence of operations, the first of the list first. -/
def runOps (NUM_THREADS : Nat) : List Op → Process → Process
  | [], s => s
  | op :: ops, s => runOps NUM_THREADS ops (step NUM_THREADS op s)

/-- The jobs dequeued during a sequence of operations, in the order of their
dequeuing. -/
def dequeuedLog (NUM_THREADS : Nat) : List Op → Process → List Job
  | [], _ => []
  | op :: ops, s => dequeuedBy op s ++ dequeuedLog NUM_THREADS ops (step NUM_THREADS op s)

/-- The jobs submitted during a sequence of operations, in submission order. -/
def submittedLog (NUM_THREADS : Nat) : List Op → Process → List Job
  | [], _ => []
  | op :: ops, s => submittedBy op s ++ submittedLog NUM_THREADS ops (step NUM_THREADS op s)

/-- The four lifecycle states of the pool. -/
inductive PoolState where
  | Created
  | Running
  | Stopping
  | Stopped
deriving DecidableEq, Repr

/-- The lifecycle state read off the fields: the flag and whether worker handles
are held. -/
def stateOf (p : Pool) : PoolState :=
  match p.m_shouldTerminate, p.m_threads.isEmpty with
  | false, true => PoolState.Created
  | false, false => PoolState.Running
  | true, false => PoolState.Stopping
  | true, true => PoolState.Stopped

/-- The position of a state in `Created -> Running -> Stopping -> Stopped`. -/
def PoolState.rank : PoolState → Nat
  | PoolState.Created => 0
  | PoolState.Running => 1
  | PoolState.Stopping => 2
  | PoolState.Stopped => 3

/-- The worker handles of a pool are all there or none: either no handle is
held, or the thread count is positive and every one of the `N` slots holds a
joinable handle. -/
def HandlesInv (N : Nat) (p : Pool) : Prop :=
  p.m_threads = [] ∨
    (0 < N ∧ p.m_threads.length = N ∧ ∀ t ∈ p.m_threads, t ≠ 0)

end ThreadPool

namespace Factory

/-- The enumeration `Factory::Status`, line 44. -/
inductive Status where
  | ADDED
  | UPDATED
deriving DecidableEq, Repr

/-- The contents of a `std::unordered_map<Key, CreatorFunc_ty>`: the stored
key/value pairs.  Iteration order is not observable through `find` and
`operator[]`, the two members the factory uses. -/
abbrev UnorderedMap (Key Creator : Type) := List (Key × Creator)

/-- The member `unordered_map::find`: the value stored under the key, `none`
standing for the iterator `end()`. -/
def find {Key Creator : Type} [DecidableEq Key] :
    UnorderedMap Key Creator → Key → Option Creator
  | [], _ => none
  | (k, v) :: rest, key => if k = key then some v else find rest key

/-- The assignment `m[key] = value`: the element under the key is overwritten,
or a new element is inserted when there is none. -/
def assign {Key Creator : Type} [DecidableEq Key] :
    UnorderedMap Key Creator → Key → Creator → UnorderedMap Key Creator
  | [], key, value => [(key, value)]
  | (k, v) :: rest, key, value =>
    if k = key then (k, value) :: rest else (k, v) :: assign rest key value

/-- The data member of `class Factory`. -/
structure Registry (Key Creator : Type) where
  m_tasks : UnorderedMap Key Creator

/-- The function `Factory::Add`, lines 70-83. -/
def Add {Key Creator : Type} [DecidableEq Key]
    (f : Registry Key Creator) (key_ : Key) (creator_ : Creator) :
    Status × Registry Key Creator :=
  let status :=
    if (find f.m_tasks key_).isSome then Status.UPDATED else Status.ADDED
  (status, { m_tasks := assign f.m_tasks key_ creator_ })

end Factory


namespace ThreadPool

/-! ## Structure of `Start` -/

theorem launchLoop_flag (k : Nat) : ∀ (i : Nat) (p : Pool),
    (launchLoop i k p).pool.m_shouldTerminate = p.m_shouldTerminate := by
  induction k with
  | zero => intro i p; rfl
  | succ k ih =>
    intro i p
    simp only [launchLoop]
    split
    · rfl
    · rw [ih]

theorem launchLoop_jobs (k : Nat) : ∀ (i : Nat) (p : Pool),
    (launchLoop i k p).pool.m_jobs = p.m_jobs := by
  induction k with
  | zero => intro i p; rfl
  | succ k ih =>
    intro i p
    simp only [launchLoop]
    split
    · rfl
    · rw [ih]

theorem Start_flag (N : Nat) (p : Pool) :
    (Start N p).pool.m_shouldTerminate = p.m_shouldTerminate := by
  unfold Start
  split
  · rfl
  · rw [launchLoop_flag]

theorem Start_jobs (N : Nat) (p : Pool) : (Start N p).pool.m_jobs = p.m_jobs := by
  unfold Start
  split
  · rfl
  · rw [launchLoop_jobs]

theorem take_set_same (v : List ThreadId) (i : Nat) (t : ThreadId) :
    (v.set i t).take i = v.take i := by
  apply List.ext_getElem?
  intro j
  rw [List.getElem?_take, List.getElem?_take]
  split
  · rw [List.getElem?_set_ne (by omega)]
  · rfl

/-- When the loop runs to its end, the slots from `i` on hold the threads it
launched, in launch order, and the slots before `i` are untouched. -/
theorem launchLoop_returned (k : Nat) : ∀ (i : Nat) (p : Pool),
    p.m_threads.length = i + k →
    (launchLoop i k p).terminated = false →
    (launchLoop i k p).pool.m_threads
        = p.m_threads.take i ++ List.range' (p.launched + 1) k ∧
      (launchLoop i k p).pool.launched = p.launched + k := by
  induction k with
  | zero =>
    intro i p h _
    simp only [launchLoop, List.range'_zero, List.append_nil, Nat.add_zero, and_true]
    rw [List.take_of_length_le (by omega)]
  | succ k ih =>
    intro i p h ht
    simp only [launchLoop] at ht ⊢
    by_cases hj : joinable (p.m_threads.getD i 0) = true
    · rw [if_pos hj] at ht
      simp at ht
    · rw [if_neg hj] at ht ⊢
      have h2 := ih (i + 1)
        { p with m_threads := p.m_threads.set i (p.launched + 1),
                 launched := p.launched + 1 }
        (by simp only [List.length_set]; omega) ht
      refine ⟨?_, ?_⟩
      · rw [h2.1]
        simp only [List.range'_succ]
        have hi : i < p.m_threads.length := by omega
        rw [List.take_succ, take_set_same]
        simp [List.getElem?_set, hi]
      · rw [h2.2]; simp only; omega

/-- The loop runs to its end when no slot from `i` on holds a joinable
handle. -/
theorem launchLoop_unbound (k : Nat) : ∀ (i : Nat) (p : Pool),
    (∀ j, i ≤ j → p.m_threads.getD j 0 = 0) →
    (launchLoop i k p).terminated = false := by
  induction k with
  | zero => intro i p _; rfl
  | succ k ih =>
    intro i p h
    simp only [launchLoop]
    have hi : ¬ joinable (p.m_threads.getD i 0) = true := by
      rw [h i (le_refl i)]; decide
    rw [if_neg hi]
    apply ih
    intro j hj
    have hne : i ≠ j := by omega
    have := h j (by omega)
    simp only [List.getD_eq_getElem?_getD] at this ⊢
    rw [List.getElem?_set_ne hne]
    exact this

theorem resize_nil (n : Nat) : resize [] n = some (List.replicate n 0) := by
  simp [resize]

/-- `Start` on a pool that holds no handle returns, with every one of the
`NUM_THREADS` slots bound to a newly launched thread. -/
theorem Start_of_no_handles (N : Nat) (p : Pool) (h : p.m_threads = []) :
    (Start N p).terminated = false ∧
      (Start N p).pool.m_threads = List.range' (p.launched + 1) N := by
  have hr : resize p.m_threads N = some (List.replicate N 0) := by
    rw [h]; exact resize_nil N
  have ht : (Start N p).terminated = false := by
    simp only [Start, hr]
    apply launchLoop_unbound
    intro j _
    simp only [List.getD_eq_getElem?_getD]
    by_cases hj : j < N
    · simp [List.getElem?_replicate, hj]
    · simp [List.getElem?_replicate, hj]
  refine ⟨ht, ?_⟩
  simp only [Start, hr] at ht ⊢
  have := launchLoop_returned N 0 { p with m_threads := List.replicate N 0 } (by simp) ht
  simpa using this.1

/-- `Start` on a pool whose `NUM_THREADS` slots all hold joinable handles: the
first assignment terminates the process, the handles are as they were. -/
theorem Start_of_joinable (N : Nat) (p : Pool) (hN : 0 < N)
    (hl : p.m_threads.length = N) (hj : ∀ t ∈ p.m_threads, t ≠ 0) :
    Start N p = { pool := { p with launched := p.launched + 1 }, terminated := true } := by
  obtain ⟨flag, threads, jobs, l⟩ := p
  simp only at hl hj
  cases threads with
  | nil => simp at hl; omega
  | cons t rest =>
    have ht : t ≠ 0 := hj t (List.mem_cons_self _ _)
    have hd : List.drop N (t :: rest) = [] := List.drop_eq_nil_of_le (by omega)
    have hk : List.take N (t :: rest) = t :: rest := List.take_of_length_le (by omega)
    have hr : resize (t :: rest) N = some (t :: rest) := by
      simp [resize, hd, hk, hl]
    obtain ⟨n, rfl⟩ : ∃ n, N = n + 1 := ⟨N - 1, by omega⟩
    have hjn : joinable t = true := by simp [joinable, ht]
    simp only [Start, hr, launchLoop, List.getD_cons_zero, hjn, if_true]

end ThreadPool

namespace ThreadPool

/-! ## Queue discipline -/

theorem ThreadLoopIter_of_terminate (p : Pool) (h : p.m_shouldTerminate = true) :
    ThreadLoopIter p = (p, LoopResult.exited) := by
  simp [ThreadLoopIter, waitPredicate, h]

theorem ThreadLoopIter_flag (p : Pool) :
    (ThreadLoopIter p).1.m_shouldTerminate = p.m_shouldTerminate := by
  unfold ThreadLoopIter
  split
  · rfl
  · split
    · rfl
    · split <;> rfl

theorem ThreadLoopIter_threads (p : Pool) :
    (ThreadLoopIter p).1.m_threads = p.m_threads := by
  unfold ThreadLoopIter
  split
  · rfl
  · split
    · rfl
    · split <;> rfl

/-- One operation keeps the balance: what it dequeues, followed by the queue it
leaves, is the queue it found followed by what it submits. -/
theorem step_balance (N : Nat) (op : Op) (s : Process) :
    dequeuedBy op s ++ (step N op s).pool.m_jobs = s.pool.m_jobs ++ submittedBy op s := by
  cases ht : s.terminated with
  | true => simp [dequeuedBy, submittedBy, step, ht]
  | false =>
    cases op with
    | start => simp [dequeuedBy, submittedBy, step, ht, Start_jobs]
    | queueJob job => simp [dequeuedBy, submittedBy, step, ht, QueueJob]
    | busy => simp [dequeuedBy, submittedBy, step, ht, Busy]
    | stop => simp [dequeuedBy, submittedBy, step, ht, Stop, StopJoin, StopSignal]
    | worker =>
      cases hf : s.pool.m_shouldTerminate with
      | true =>
        simp [dequeuedBy, submittedBy, step, ht, ThreadLoopIter_of_terminate s.pool hf]
      | false =>
        cases hj : s.pool.m_jobs with
        | nil =>
          simp [dequeuedBy, submittedBy, step, ht, ThreadLoopIter, waitPredicate, hf, hj]
        | cons job rest =>
          simp [dequeuedBy, submittedBy, step, ht, ThreadLoopIter, waitPredicate, hf, hj]

theorem runOps_balance (N : Nat) (ops : List Op) : ∀ s : Process,
    dequeuedLog N ops s ++ (runOps N ops s).pool.m_jobs
      = s.pool.m_jobs ++ submittedLog N ops s := by
  induction ops with
  | nil => intro s; simp [dequeuedLog, runOps, submittedLog]
  | cons op ops ih =>
    intro s
    simp only [dequeuedLog, runOps, submittedLog, List.append_assoc]
    rw [ih, ← List.append_assoc, step_balance, List.append_assoc]

theorem step_flag_raised (N : Nat) (op : Op) (s : Process)
    (h : s.pool.m_shouldTerminate = true) :
    (step N op s).pool.m_shouldTerminate = true := by
  cases ht : s.terminated with
  | true => simp [step, ht, h]
  | false =>
    cases op with
    | start => simp [step, ht, Start_flag, h]
    | queueJob job => simp [step, ht, QueueJob, h]
    | busy => simp [step, ht, Busy, h]
    | stop => simp [step, ht, Stop, StopJoin, StopSignal]
    | worker => simp [step, ht, ThreadLoopIter_flag, h]

theorem dequeuedBy_flag_raised (op : Op) (s : Process)
    (h : s.pool.m_shouldTerminate = true) : dequeuedBy op s = [] := by
  cases ht : s.terminated with
  | true => simp [dequeuedBy, ht]
  | false => cases op <;> simp [dequeuedBy, ht, ThreadLoopIter_of_terminate s.pool h]

theorem runOps_flag_raised (N : Nat) (ops : List Op) : ∀ s : Process,
    s.pool.m_shouldTerminate = true →
    (runOps N ops s).pool.m_shouldTerminate = true ∧ dequeuedLog N ops s = [] := by
  induction ops with
  | nil => intro s h; exact ⟨h, rfl⟩
  | cons op ops ih =>
    intro s h
    have h1 := ih (step N op s) (step_flag_raised N op s h)
    simp only [runOps, dequeuedLog, dequeuedBy_flag_raised op s h, List.nil_append]
    exact h1

/-- C1: in every state reached from a new pool by an interleaving of
operations, the jobs dequeued so far followed by the queue are the jobs submitted
so far; hence jobs leave in submission order, none more often than it was
submitted, and an empty queue means every submitted job has been dequeued. -/
theorem dequeued_then_queue_eq_submitted (NUM_THREADS : Nat) (ops : List Op) :
    dequeuedLog NUM_THREADS ops boot ++ (runOps NUM_THREADS ops boot).pool.m_jobs
        = submittedLog NUM_THREADS ops boot ∧
      dequeuedLog NUM_THREADS ops boot <+: submittedLog NUM_THREADS ops boot ∧
      (∀ job : Job,
        (dequeuedLog NUM_THREADS ops boot).count job
          ≤ (submittedLog NUM_THREADS ops boot).count job) ∧
      ((runOps NUM_THREADS ops boot).pool.m_jobs = [] →
        dequeuedLog NUM_THREADS ops boot = submittedLog NUM_THREADS ops boot) := by
  have h : dequeuedLog NUM_THREADS ops boot ++ (runOps NUM_THREADS ops boot).pool.m_jobs
      = submittedLog NUM_THREADS ops boot := by
    have := runOps_balance NUM_THREADS ops boot
    simpa [boot, ctor] using this
  refine ⟨h, ⟨_, h⟩, ?_, ?_⟩
  · intro job
    rw [← h, List.count_append]
    omega
  · intro hq
    rw [hq, List.append_nil] at h
    exact h

/-! ## Submission after shutdown -/

/-- C2, the claim fails: on the pool `Stop` was called on, `QueueJob` puts the
job into the queue. -/
theorem QueueJob_after_Stop_enqueues :
    (Stop ctor).m_shouldTerminate = true ∧
      (QueueJob (Stop ctor) 7).m_jobs ≠ (Stop ctor).m_jobs := by
  decide

/-- C2, amended: on a pool whose termination flag is raised, `QueueJob` appends
the job at the tail of the queue, as it does on any pool, and changes neither
the flag nor the worker handles. -/
theorem QueueJob_flag_raised_appends (p : Pool) (job : Job)
    (h : p.m_shouldTerminate = true) :
    (QueueJob p job).m_jobs = p.m_jobs ++ [job] ∧
      (QueueJob p job).m_shouldTerminate = true ∧
      (QueueJob p job).m_threads = p.m_threads := by
  exact ⟨rfl, h, rfl⟩

/-- C2, amended, at the pool `Stop` was called on right after construction. -/
theorem QueueJob_flag_raised_appends_witness :
    (Stop ctor).m_shouldTerminate = true ∧
      ((QueueJob (Stop ctor) 7).m_jobs = (Stop ctor).m_jobs ++ [7] ∧
        (QueueJob (Stop ctor) 7).m_shouldTerminate = true ∧
        (QueueJob (Stop ctor) 7).m_threads = (Stop ctor).m_threads) :=
  ⟨rfl, QueueJob_flag_raised_appends (Stop ctor) 7 rfl⟩

/-! ## Starting twice -/

end ThreadPool

namespace ThreadPool

/-! ## Shutdown -/

/-- C4: with the termination flag raised, an iteration of the worker loop
exits and leaves the queue as it is; and whatever operations follow, the flag
stays raised, no job is dequeued, and the jobs that were queued are still at the
head of the queue. -/
theorem no_dequeue_once_terminating (NUM_THREADS : Nat) (s : Process) (ops : List Op)
    (h : s.pool.m_shouldTerminate = true) :
    ThreadLoopIter s.pool = (s.pool, LoopResult.exited) ∧
      (runOps NUM_THREADS ops s).pool.m_shouldTerminate = true ∧
      dequeuedLog NUM_THREADS ops s = [] ∧
      (runOps NUM_THREADS ops s).pool.m_jobs
        = s.pool.m_jobs ++ submittedLog NUM_THREADS ops s := by
  have h1 := runOps_flag_raised NUM_THREADS ops s h
  have h2 := runOps_balance NUM_THREADS ops s
  rw [h1.2, List.nil_append] at h2
  exact ⟨ThreadLoopIter_of_terminate s.pool h, h1.1, h1.2, h2⟩

/-- C4 at a started pool with one job queued on which `Stop` has raised the
flag and not yet joined the workers, followed by worker iterations, a
submission and the rest of `Stop`. -/
theorem no_dequeue_once_terminating_witness :
    (step 2 Op.start boot).terminated = false ∧
      (StopSignal (QueueJob (step 2 Op.start boot).pool 7)).m_jobs = [7] ∧
      (StopSignal (QueueJob (step 2 Op.start boot).pool 7)).m_shouldTerminate = true ∧
      (ThreadLoopIter (StopSignal (QueueJob (step 2 Op.start boot).pool 7))
          = (StopSignal (QueueJob (step 2 Op.start boot).pool 7), LoopResult.exited) ∧
        (runOps 2 [Op.worker, Op.queueJob 8, Op.worker, Op.stop, Op.worker]
          { pool := StopSignal (QueueJob (step 2 Op.start boot).pool 7),
            terminated := false }).pool.m_shouldTerminate = true ∧
        dequeuedLog 2 [Op.worker, Op.queueJob 8, Op.worker, Op.stop, Op.worker]
          { pool := StopSignal (QueueJob (step 2 Op.start boot).pool 7),
            terminated := false } = [] ∧
        (runOps 2 [Op.worker, Op.queueJob 8, Op.worker, Op.stop, Op.worker]
          { pool := StopSignal (QueueJob (step 2 Op.start boot).pool 7),
            terminated := false }).pool.m_jobs
          = (StopSignal (QueueJob (step 2 Op.start boot).pool 7)).m_jobs
            ++ submittedLog 2 [Op.worker, Op.queueJob 8, Op.worker, Op.stop, Op.worker]
              { pool := StopSignal (QueueJob (step 2 Op.start boot).pool 7),
                terminated := false }) :=
  ⟨by decide, by decide, by decide,
    no_dequeue_once_terminating 2
      { pool := StopSignal (QueueJob (step 2 Op.start boot).pool 7), terminated := false }
      [Op.worker, Op.queueJob 8, Op.worker, Op.stop, Op.worker] (by decide)⟩

/-- C6: `Stop` after `Stop` is `Stop`; the first call leaves the flag raised
and no worker handle, and the second call leaves the queue as the first did. -/
theorem Stop_idempotent (p : Pool) :
    Stop (Stop p) = Stop p ∧
      (Stop p).m_shouldTerminate = true ∧
      (Stop p).m_threads = [] ∧
      (Stop (Stop p)).m_jobs = (Stop p).m_jobs := by
  simp [Stop, StopJoin, StopSignal]

/-! ## The queue-empty query -/

/-- C7: `Busy` returns true exactly when the job queue is empty, and leaves
the pool, in particular the queue and the termination flag, as it was. -/
theorem Busy_true_iff_queue_empty (p : Pool) :
    ((Busy p).1 = true ↔ p.m_jobs = []) ∧
      (Busy p).2.m_jobs = p.m_jobs ∧
      (Busy p).2.m_shouldTerminate = p.m_shouldTerminate ∧
      (Busy p).2 = p := by
  simp [Busy, List.isEmpty_iff]

/-- C8, the code at the failing input: with one job queued `Busy` returns
false, and on the empty queue of a new pool it returns true. -/
theorem Busy_false_while_job_queued :
    (QueueJob ctor 7).m_jobs = [7] ∧
      (Busy (QueueJob ctor 7)).1 = false ∧
      (Busy ctor).1 = true := by
  decide

/-! ## Lifecycle -/

theorem rank_le_three (st : PoolState) : st.rank ≤ 3 := by
  cases st <;> simp [PoolState.rank]

theorem stateOf_Stop (p : Pool) : stateOf (Stop p) = PoolState.Stopped := by
  simp [stateOf, Stop, StopJoin, StopSignal]

theorem stateOf_congr (p q : Pool) (hf : q.m_shouldTerminate = p.m_shouldTerminate)
    (ht : q.m_threads = p.m_threads) : stateOf q = stateOf p := by
  simp [stateOf, hf, ht]

theorem Start_HandlesInv (N : Nat) (p : Pool) (h : HandlesInv N p) :
    HandlesInv N (Start N p).pool := by
  rcases h with h | ⟨hN, hl, hj⟩
  · have hs := (Start_of_no_handles N p h).2
    rcases Nat.eq_zero_or_pos N with h0 | h0
    · left; rw [hs, h0]; rfl
    · right
      refine ⟨h0, by rw [hs]; simp, ?_⟩
      intro t ht
      rw [hs, List.mem_range'_1] at ht
      exact Nat.ne_of_gt (Nat.lt_of_lt_of_le (Nat.succ_pos _) ht.1)
  · rw [Start_of_joinable N p hN hl hj]
    exact Or.inr ⟨hN, hl, hj⟩

theorem step_HandlesInv (N : Nat) (op : Op) (s : Process) (h : HandlesInv N s.pool) :
    HandlesInv N (step N op s).pool := by
  cases ht : s.terminated with
  | true => simpa [step, ht] using h
  | false =>
    cases op with
    | start => simpa [step, ht] using Start_HandlesInv N s.pool h
    | queueJob job => simpa [step, ht, QueueJob, HandlesInv] using h
    | busy => simpa [step, ht, Busy, HandlesInv] using h
    | stop => left; simp [step, ht, Stop, StopJoin, StopSignal]
    | worker => simpa [step, ht, HandlesInv, ThreadLoopIter_threads] using h

theorem runOps_HandlesInv (N : Nat) (ops : List Op) : ∀ s : Process,
    HandlesInv N s.pool → HandlesInv N (runOps N ops s).pool := by
  induction ops with
  | nil => intro s h; exact h
  | cons op ops ih => intro s h; exact ih _ (step_HandlesInv N op s h)

end ThreadPool

namespace ThreadPool

theorem range_isEmpty_of_pos (a N : Nat) (h : 0 < N) :
    (List.range' a N).isEmpty = false := by
  cases N with
  | zero => omega
  | succ n => simp [List.range'_succ]

/-- The lifecycle state after `Start` on a pool that holds no handle. -/
theorem stateOf_Start_no_handles (N : Nat) (p : Pool) (h : p.m_threads = []) :
    stateOf (Start N p).pool =
      match p.m_shouldTerminate, decide (0 < N) with
      | false, false => PoolState.Created
      | false, true => PoolState.Running
      | true, true => PoolState.Stopping
      | true, false => PoolState.Stopped := by
  have hs := (Start_of_no_handles N p h).2
  have hf := Start_flag N p
  rcases Nat.eq_zero_or_pos N with h0 | h0
  · subst h0
    cases hb : p.m_shouldTerminate <;> simp [stateOf, hs, hf, hb]
  · have he := range_isEmpty_of_pos (p.launched + 1) N h0
    cases hb : p.m_shouldTerminate <;> simp [stateOf, hs, hf, hb, he, h0]

/-- One operation on a pool whose handles are all there or none: the state
moves back exactly in the case of `Start` on a `Stopped` pool with a positive
thread count, and then to `Stopping`. -/
theorem step_rank (N : Nat) (op : Op) (s : Process) (hinv : HandlesInv N s.pool) :
    ((stateOf (step N op s).pool).rank < (stateOf s.pool).rank ↔
        (op = Op.start ∧ s.terminated = false ∧
          stateOf s.pool = PoolState.Stopped ∧ 0 < N)) ∧
      ((stateOf (step N op s).pool).rank < (stateOf s.pool).rank →
        stateOf (step N op s).pool = PoolState.Stopping) := by
  cases ht : s.terminated with
  | true => simp [step, ht]
  | false =>
    cases op with
    | start =>
      simp only [step, ht, Bool.false_eq_true, if_false, true_and]
      rcases hinv with h | ⟨hN, hl, hj⟩
      · have h1 := stateOf_Start_no_handles N s.pool h
        have h2 : stateOf s.pool
            = (match s.pool.m_shouldTerminate with
              | false => PoolState.Created
              | true => PoolState.Stopped) := by
          cases hb : s.pool.m_shouldTerminate <;> simp [stateOf, hb, h]
        rw [h1, h2]
        rcases Nat.eq_zero_or_pos N with h0 | h0
        · subst h0
          cases hb : s.pool.m_shouldTerminate <;> simp [PoolState.rank]
        · cases hb : s.pool.m_shouldTerminate <;> simp [PoolState.rank, h0]
      · rw [Start_of_joinable N s.pool hN hl hj]
        have hne : s.pool.m_threads.isEmpty = false := by
          cases hth : s.pool.m_threads with
          | nil => rw [hth] at hl; simp at hl; omega
          | cons t rest => rfl
        have hsame : stateOf { s.pool with launched := s.pool.launched + 1 } = stateOf s.pool :=
          stateOf_congr _ _ rfl rfl
        rw [hsame]
        have hns : stateOf s.pool ≠ PoolState.Stopped := by
          cases hb : s.pool.m_shouldTerminate <;> simp [stateOf, hb, hne]
        simp [hns]
    | queueJob job =>
      have hsame : stateOf (step N (Op.queueJob job) s).pool = stateOf s.pool := by
        simp only [step, ht, Bool.false_eq_true, if_false]
        exact stateOf_congr _ _ rfl rfl
      simp [hsame]
    | busy =>
      have hsame : stateOf (step N Op.busy s).pool = stateOf s.pool := by
        simp only [step, ht, Bool.false_eq_true, if_false]
        exact stateOf_congr _ _ rfl rfl
      simp [hsame]
    | stop =>
      have hst : stateOf (step N Op.stop s).pool = PoolState.Stopped := by
        simp only [step, ht, Bool.false_eq_true, if_false]
        exact stateOf_Stop _
      have hle := rank_le_three (stateOf s.pool)
      have h3 : PoolState.Stopped.rank = 3 := rfl
      rw [hst, h3]
      have hnot : ¬ 3 < (stateOf s.pool).rank := by omega
      simp [hnot]
    | worker =>
      have hsame : stateOf (step N Op.worker s).pool = stateOf s.pool := by
        simp only [step, ht, Bool.false_eq_true, if_false]
        exact stateOf_congr _ _ (ThreadLoopIter_flag _) (ThreadLoopIter_threads _)
      simp [hsame]

/-- C5, the claim fails: `Start` on a pool that is `Stopped` returns and takes
the pool back to `Stopping`, an earlier state. -/
theorem Start_on_Stopped_moves_back :
    (runOps 2 [Op.start, Op.stop] boot).terminated = false ∧
      stateOf (runOps 2 [Op.start, Op.stop] boot).pool = PoolState.Stopped ∧
      (step 2 Op.start (runOps 2 [Op.start, Op.stop] boot)).terminated = false ∧
      stateOf (step 2 Op.start (runOps 2 [Op.start, Op.stop] boot)).pool
        = PoolState.Stopping ∧
      ¬ ((stateOf (runOps 2 [Op.start, Op.stop] boot).pool).rank
          ≤ (stateOf (step 2 Op.start (runOps 2 [Op.start, Op.stop] boot)).pool).rank) := by
  decide

/-- C5, amended: in every state reached from a new pool, an operation among
`Start`, `QueueJob`, `Busy`, `Stop` and an iteration of the worker loop moves
the pool to an earlier state of `Created -> Running -> Stopping -> Stopped` in
one case only, `Start` on a `Stopped` pool with a positive thread count, and the
pool is then `Stopping`. -/
theorem state_rank_monotone (NUM_THREADS : Nat) (ops : List Op) (op : Op) :
    ((stateOf (step NUM_THREADS op (runOps NUM_THREADS ops boot)).pool).rank
          < (stateOf (runOps NUM_THREADS ops boot).pool).rank ↔
        (op = Op.start ∧ (runOps NUM_THREADS ops boot).terminated = false ∧
          stateOf (runOps NUM_THREADS ops boot).pool = PoolState.Stopped ∧
          0 < NUM_THREADS)) ∧
      ((stateOf (step NUM_THREADS op (runOps NUM_THREADS ops boot)).pool).rank
          < (stateOf (runOps NUM_THREADS ops boot).pool).rank →
        stateOf (step NUM_THREADS op (runOps NUM_THREADS ops boot)).pool
          = PoolState.Stopping) :=
  step_rank NUM_THREADS op (runOps NUM_THREADS ops boot)
    (runOps_HandlesInv NUM_THREADS ops boot (Or.inl rfl))

end ThreadPool

namespace Factory

/-! ## The registry -/

theorem find_assign_same {Key Creator : Type} [DecidableEq Key]
    (m : UnorderedMap Key Creator) (key : Key) (value : Creator) :
    find (assign m key value) key = some value := by
  induction m with
  | nil => simp [assign, find]
  | cons e rest ih =>
    obtain ⟨k, v⟩ := e
    by_cases hk : k = key
    · simp [assign, find, hk]
    · simp [assign, find, hk, ih]

/-- C9: `Add` returns UPDATED when the key is in the registry before the call
and ADDED when it is not; after the call the key is present, bound to the
creator that was passed. -/
theorem Add_status_and_presence {Key Creator : Type} [DecidableEq Key]
    (f : Registry Key Creator) (key_ : Key) (creator_ : Creator) :
    ((find f.m_tasks key_).isSome = true → (Add f key_ creator_).1 = Status.UPDATED) ∧
      ((find f.m_tasks key_).isSome = false → (Add f key_ creator_).1 = Status.ADDED) ∧
      (find (Add f key_ creator_).2.m_tasks key_).isSome = true ∧
      find (Add f key_ creator_).2.m_tasks key_ = some creator_ := by
  refine ⟨?_, ?_, ?_, ?_⟩
  · intro h; simp [Add, h]
  · intro h; simp [Add, h]
  · simp [Add, find_assign_same]
  · simp [Add, find_assign_same]

end Factory
